import Mathlib

/-!
# Verification of the iNES cartridge loader (`src/rom.rs`)

Shallow embedding of the `RomHeader` / `Rom` data model and of `Rom::load`.

Bytes are modelled as `Nat` (the Rust buffer holds `u8`, so every element is
below 256; no claim depends on that bound).  A buffer is a `List Nat`.

Rust indexing `buffer[i]` and slicing `buffer[a..b]` panic when out of
bounds; both are modelled by `Option`-returning operations (`getChecked`,
`sliceChecked`) and `Rom.load` runs in the `Option` monad on top of
`Except`: `none` models a panic, `some (Except.error e)` a returned error,
`some (Except.ok rom)` success.  The file-I/O half of `Rom::load`
(lines 120-126) is out of scope; the embedding starts from the byte buffer,
exactly as the specification's §4.1 steps 2-11 describe.
-/

def PRG_ROM_PAGE_SIZE : Nat := 0x4000

def CHR_ROM_PAGE_SIZE : Nat := 0x2000

def INES_HEADER_SIZE : Nat := 16

def TRAINER_SIZE : Nat := 512

/-- `NES_SIGNATURE = [b'N', b'E', b'S', 0x1A]` (rom.rs line 10). -/
def NES_SIGNATURE : List Nat := [78, 69, 83, 0x1A]

/-- Mirroring modes (rom.rs lines 13-19). -/
inductive Mirroring where
  | Vertical
  | Horizontal
  | FourScreen
  deriving DecidableEq, Repr

/-- The iNES header record (rom.rs lines 25-40). -/
structure RomHeader where
  signature : List Nat
  num_prg_pages : Nat
  num_chr_pages : Nat
  control_byte1 : Nat
  control_byte2 : Nat
  reserved : List Nat
  deriving DecidableEq, Repr

/-- `RomHeader::mirroring` (rom.rs lines 46-57). -/
def RomHeader.mirroring (h : RomHeader) : Mirroring :=
  let four_screen := (h.control_byte1 &&& 8) ≠ 0
  let vertical := (h.control_byte1 &&& 1) ≠ 0
  if four_screen then
    Mirroring.FourScreen
  else if vertical then
    Mirroring.Vertical
  else
    Mirroring.Horizontal

/-- `RomHeader::has_battery_backed_ram` (rom.rs lines 61-63). -/
def RomHeader.has_battery_backed_ram (h : RomHeader) : Bool :=
  (h.control_byte1 &&& 2) != 0

/-- `RomHeader::has_trainer` (rom.rs lines 67-69). -/
def RomHeader.has_trainer (h : RomHeader) : Bool :=
  (h.control_byte1 &&& 4) != 0

/-- `RomHeader::mapper_id` (rom.rs lines 73-76). -/
def RomHeader.mapper_id (h : RomHeader) : Nat :=
  (h.control_byte2 &&& 0xF0) ||| (h.control_byte1 >>> 4)

/-- Load errors.  The Rust code returns `String` errors; each distinct
format string (rom.rs lines 130, 149, 166-169) becomes one constructor,
carrying the values interpolated into the message. -/
inductive LoadError where
  | TooSmall (actual : Nat)
  | BadSignature (found : List Nat)
  | TruncatedFile (actual : Nat) (expected : Nat)
  deriving DecidableEq, Repr

/-- The loaded cartridge (rom.rs lines 100-110). -/
structure Rom where
  header : RomHeader
  prg_rom : List Nat
  chr_rom : List Nat
  deriving DecidableEq, Repr

instance {ε α : Type} [DecidableEq ε] [DecidableEq α] : DecidableEq (Except ε α) :=
  fun a b =>
    match a, b with
    | Except.error e, Except.error f =>
      if h : e = f then isTrue (by rw [h]) else isFalse (by intro hc; cases hc; exact h rfl)
    | Except.error _, Except.ok _ => isFalse (by intro hc; cases hc)
    | Except.ok _, Except.error _ => isFalse (by intro hc; cases hc)
    | Except.ok x, Except.ok y =>
      if h : x = y then isTrue (by rw [h]) else isFalse (by intro hc; cases hc; exact h rfl)

/-- Bounds-checked indexing: models Rust `buffer[i]` (`none` = panic). -/
def getChecked (buffer : List Nat) (i : Nat) : Option Nat :=
  if i < buffer.length then some (buffer.getD i 0) else none

/-- Bounds-checked slicing: models Rust `buffer[start..start+len].to_vec()`
(`none` = panic). -/
def sliceChecked (buffer : List Nat) (start len : Nat) : Option (List Nat) :=
  if start + len ≤ buffer.length then some ((buffer.drop start).take len) else none

/-- `Rom::load` (rom.rs lines 118-189), starting from the byte buffer
(the file has already been read; I/O errors are out of scope). -/
def Rom.load (buffer : List Nat) : Option (Except LoadError Rom) :=
  if buffer.length < INES_HEADER_SIZE then
    some (Except.error (LoadError.TooSmall buffer.length))
  else
    (getChecked buffer 0).bind fun b0 =>
    (getChecked buffer 1).bind fun b1 =>
    (getChecked buffer 2).bind fun b2 =>
    (getChecked buffer 3).bind fun b3 =>
    (getChecked buffer 4).bind fun b4 =>
    (getChecked buffer 5).bind fun b5 =>
    (getChecked buffer 6).bind fun b6 =>
    (getChecked buffer 7).bind fun b7 =>
    (sliceChecked buffer 8 (INES_HEADER_SIZE - 8)).bind fun rsv =>
    let header : RomHeader :=
      { signature := [b0, b1, b2, b3]
        num_prg_pages := b4
        num_chr_pages := b5
        control_byte1 := b6
        control_byte2 := b7
        reserved := rsv }
    if header.signature ≠ NES_SIGNATURE then
      some (Except.error (LoadError.BadSignature header.signature))
    else
      let has_trainer := (header.control_byte1 &&& 4) ≠ 0
      let trainer_offset := if has_trainer then TRAINER_SIZE else 0
      let prg_rom_size := header.num_prg_pages * PRG_ROM_PAGE_SIZE
      let chr_rom_size := header.num_chr_pages * CHR_ROM_PAGE_SIZE
      let prg_rom_start := INES_HEADER_SIZE + trainer_offset
      let chr_rom_start := prg_rom_start + prg_rom_size
      let expected_total_size :=
        INES_HEADER_SIZE + trainer_offset + prg_rom_size + chr_rom_size
      if buffer.length < expected_total_size then
        some (Except.error (LoadError.TruncatedFile buffer.length expected_total_size))
      else
        (sliceChecked buffer prg_rom_start prg_rom_size).bind fun prg_rom =>
        (sliceChecked buffer chr_rom_start chr_rom_size).bind fun chr_rom =>
        some (Except.ok { header := header, prg_rom := prg_rom, chr_rom := chr_rom })

/-- The header `Rom::load` builds from a (≥ 16 byte) buffer
(rom.rs lines 137-145). -/
def headerOf (buffer : List Nat) : RomHeader :=
  { signature := [buffer.getD 0 0, buffer.getD 1 0, buffer.getD 2 0, buffer.getD 3 0]
    num_prg_pages := buffer.getD 4 0
    num_chr_pages := buffer.getD 5 0
    control_byte1 := buffer.getD 6 0
    control_byte2 := buffer.getD 7 0
    reserved := (buffer.drop 8).take (INES_HEADER_SIZE - 8) }

/-- `trainer_offset` as computed at rom.rs lines 153-154. -/
def trainerOffset (buffer : List Nat) : Nat :=
  if (buffer.getD 6 0 &&& 4) ≠ 0 then TRAINER_SIZE else 0

/-- `prg_rom_size` (rom.rs line 156). -/
def prgRomSize (buffer : List Nat) : Nat :=
  buffer.getD 4 0 * PRG_ROM_PAGE_SIZE

/-- `chr_rom_size` (rom.rs line 157). -/
def chrRomSize (buffer : List Nat) : Nat :=
  buffer.getD 5 0 * CHR_ROM_PAGE_SIZE

/-- `prg_rom_start` (rom.rs line 159). -/
def prgRomStart (buffer : List Nat) : Nat :=
  INES_HEADER_SIZE + trainerOffset buffer

/-- `chr_rom_start` (rom.rs line 160). -/
def chrRomStart (buffer : List Nat) : Nat :=
  prgRomStart buffer + prgRomSize buffer

/-- `expected_total_size` (rom.rs line 162). -/
def expectedTotal (buffer : List Nat) : Nat :=
  INES_HEADER_SIZE + trainerOffset buffer + prgRomSize buffer + chrRomSize buffer

/-- Whether the oversize warning at rom.rs lines 172-177 is printed: control
reaches line 172 (buffer at least 16 bytes, good signature, not truncated)
and the buffer is strictly longer than `expected_total_size`. -/
def noticeEmitted (buffer : List Nat) : Bool :=
  decide (INES_HEADER_SIZE ≤ buffer.length)
    && decide ((headerOf buffer).signature = NES_SIGNATURE)
    && decide (expectedTotal buffer < buffer.length)

/-- Erase the stored `control_byte2` header field of a cartridge (used to
state that two load results agree everywhere else). -/
def Rom.scrubCb2 (r : Rom) : Rom :=
  { header :=
      { signature := r.header.signature
        num_prg_pages := r.header.num_prg_pages
        num_chr_pages := r.header.num_chr_pages
        control_byte1 := r.header.control_byte1
        control_byte2 := 0
        reserved := r.header.reserved }
    prg_rom := r.prg_rom
    chr_rom := r.chr_rom }

theorem getChecked_eq_of_lt (buffer : List Nat) (i : Nat) (hi : i < buffer.length) :
    getChecked buffer i = some (buffer.getD i 0) := by
  simp [getChecked, hi]

theorem sliceChecked_eq_of_le (buffer : List Nat) (start len : Nat)
    (hle : start + len ≤ buffer.length) :
    sliceChecked buffer start len = some ((buffer.drop start).take len) := by
  simp [sliceChecked, hle]

/-- Normal form of `Rom.load` on buffers holding at least the 16-byte header:
the three remaining control paths, with header, sizes and slices expressed
through the top-level helper definitions. -/
theorem load_eq_of_ge (buffer : List Nat) (h : INES_HEADER_SIZE ≤ buffer.length) :
    Rom.load buffer =
      if (headerOf buffer).signature ≠ NES_SIGNATURE then
        some (Except.error (LoadError.BadSignature (headerOf buffer).signature))
      else if buffer.length < expectedTotal buffer then
        some (Except.error (LoadError.TruncatedFile buffer.length (expectedTotal buffer)))
      else
        some (Except.ok
          { header := headerOf buffer
            prg_rom := (buffer.drop (prgRomStart buffer)).take (prgRomSize buffer)
            chr_rom := (buffer.drop (chrRomStart buffer)).take (chrRomSize buffer) }) := by
  have h16 : 16 ≤ buffer.length := by simpa [INES_HEADER_SIZE] using h
  rw [Rom.load, if_neg (by simp only [INES_HEADER_SIZE]; omega)]
  rw [getChecked_eq_of_lt buffer 0 (by omega), getChecked_eq_of_lt buffer 1 (by omega),
      getChecked_eq_of_lt buffer 2 (by omega), getChecked_eq_of_lt buffer 3 (by omega),
      getChecked_eq_of_lt buffer 4 (by omega), getChecked_eq_of_lt buffer 5 (by omega),
      getChecked_eq_of_lt buffer 6 (by omega), getChecked_eq_of_lt buffer 7 (by omega),
      sliceChecked_eq_of_le buffer 8 (INES_HEADER_SIZE - 8)
        (by simp only [INES_HEADER_SIZE]; omega)]
  simp only [Option.some_bind, headerOf, expectedTotal, trainerOffset, prgRomSize,
    chrRomSize, prgRomStart, chrRomStart, INES_HEADER_SIZE, TRAINER_SIZE,
    PRG_ROM_PAGE_SIZE, CHR_ROM_PAGE_SIZE, ite_not]
  split_ifs with h1 h2 h3 h4 <;>
    first
      | rfl
      | (rw [sliceChecked_eq_of_le buffer _ _ (by omega), Option.some_bind,
             sliceChecked_eq_of_le buffer _ _ (by omega), Option.some_bind])

/-- The under-16-bytes rejection path (rom.rs lines 129-131). -/
theorem load_eq_of_lt (buffer : List Nat) (hlt : buffer.length < INES_HEADER_SIZE) :
    Rom.load buffer = some (Except.error (LoadError.TooSmall buffer.length)) := by
  rw [Rom.load, if_pos hlt]

/-- Characterisation of successful loads: `Rom.load` returns `Except.ok rom`
exactly when the buffer holds the header, the signature matches, the buffer
is at least the declared total size, and `rom` is the header plus the two
declared slices. -/
theorem load_ok_iff (buffer : List Nat) (rom : Rom) :
    Rom.load buffer = some (Except.ok rom) ↔
      INES_HEADER_SIZE ≤ buffer.length ∧
      (headerOf buffer).signature = NES_SIGNATURE ∧
      expectedTotal buffer ≤ buffer.length ∧
      rom = { header := headerOf buffer
              prg_rom := (buffer.drop (prgRomStart buffer)).take (prgRomSize buffer)
              chr_rom := (buffer.drop (chrRomStart buffer)).take (chrRomSize buffer) } := by
  constructor
  · intro hok
    by_cases hlen : buffer.length < INES_HEADER_SIZE
    · rw [Rom.load, if_pos hlen] at hok
      simp at hok
    · have hge : INES_HEADER_SIZE ≤ buffer.length := le_of_not_lt hlen
      rw [load_eq_of_ge buffer hge] at hok
      split_ifs at hok with hs ht
      · simp at hok
      · simp at hok
      · simp only [Option.some.injEq, Except.ok.injEq] at hok
        exact ⟨hge, not_not.mp hs, le_of_not_lt ht, hok.symm⟩
  · rintro ⟨hge, hsig, hexp, rfl⟩
    rw [load_eq_of_ge buffer hge, if_neg (by simp [hsig]), if_neg (by omega)]

/-- C1: for every byte sequence that `Rom.load` accepts, the cartridge's
`prg_rom` has exactly `num_prg_pages * 16384` bytes and its `chr_rom` exactly
`num_chr_pages * 8192` bytes, where the page counts are bytes 4 and 5 of the
input; this holds whether or not a trainer is present. -/
theorem C1_rom_sizes (buffer : List Nat) (rom : Rom)
    (hok : Rom.load buffer = some (Except.ok rom)) :
    rom.header.num_prg_pages = buffer.getD 4 0 ∧
    rom.header.num_chr_pages = buffer.getD 5 0 ∧
    rom.prg_rom.length = buffer.getD 4 0 * 16384 ∧
    rom.chr_rom.length = buffer.getD 5 0 * 8192 := by
  obtain ⟨h16, hsig, hexp, rfl⟩ := (load_ok_iff buffer rom).mp hok
  refine ⟨rfl, rfl, ?_, ?_⟩ <;>
  · simp only [List.length_take, List.length_drop, headerOf, prgRomSize, chrRomSize,
      prgRomStart, chrRomStart, expectedTotal, INES_HEADER_SIZE,
      PRG_ROM_PAGE_SIZE, CHR_ROM_PAGE_SIZE] at *
    omega

/-- Sample input: bare 16-byte header, signature valid, zero PRG and CHR
pages, no trainer. -/
def headerOnlyInput : List Nat := [78, 69, 83, 26, 0, 0, 0, 0, 0, 0, 0, 0, 0, 0, 0, 0]

/-- The cartridge `Rom.load` produces from `headerOnlyInput`. -/
def headerOnlyRom : Rom :=
  { header :=
      { signature := [78, 69, 83, 26]
        num_prg_pages := 0
        num_chr_pages := 0
        control_byte1 := 0
        control_byte2 := 0
        reserved := [0, 0, 0, 0, 0, 0, 0, 0] }
    prg_rom := []
    chr_rom := [] }

theorem C1_rom_sizes_witness :
    headerOnlyRom.header.num_prg_pages = headerOnlyInput.getD 4 0 ∧
    headerOnlyRom.header.num_chr_pages = headerOnlyInput.getD 5 0 ∧
    headerOnlyRom.prg_rom.length = headerOnlyInput.getD 4 0 * 16384 ∧
    headerOnlyRom.chr_rom.length = headerOnlyInput.getD 5 0 * 8192 :=
  C1_rom_sizes headerOnlyInput headerOnlyRom (by decide)

/-- C8: every input of fewer than 16 bytes is rejected with `TooSmall`
carrying the input's actual length, before any header field is read. -/
theorem C8_too_small (buffer : List Nat) (hlt : buffer.length < 16) :
    Rom.load buffer = some (Except.error (LoadError.TooSmall buffer.length)) :=
  load_eq_of_lt buffer (by simpa [INES_HEADER_SIZE] using hlt)

theorem C8_too_small_witness :
    Rom.load [0, 0, 0, 0, 0, 0, 0, 0, 0, 0] =
      some (Except.error (LoadError.TooSmall 10)) :=
  C8_too_small [0, 0, 0, 0, 0, 0, 0, 0, 0, 0] (by decide)

/-- C9: on every input the loader produces a value — a cartridge or an
error — and never hits an out-of-bounds access (`none`, the embedding of a
Rust panic, is unreachable on every control path). -/
theorem C9_no_panic (buffer : List Nat) : (Rom.load buffer).isSome = true := by
  by_cases hlen : buffer.length < INES_HEADER_SIZE
  · rw [Rom.load, if_pos hlen]; rfl
  · rw [load_eq_of_ge buffer (le_of_not_lt hlen)]
    split_ifs <;> rfl

/-- C3: every input of at least 16 bytes whose first four bytes are not
exactly `N`,`E`,`S`,`0x1A` is rejected with `BadSignature` (so 16 zero bytes
give `BadSignature`, not `TooSmall`, and mutating any single signature byte
of an otherwise-valid input gives `BadSignature`). -/
theorem C3_bad_signature (buffer : List Nat) (h16 : 16 ≤ buffer.length)
    (hsig : [buffer.getD 0 0, buffer.getD 1 0, buffer.getD 2 0, buffer.getD 3 0] ≠
      NES_SIGNATURE) :
    Rom.load buffer =
      some (Except.error (LoadError.BadSignature
        [buffer.getD 0 0, buffer.getD 1 0, buffer.getD 2 0, buffer.getD 3 0])) := by
  rw [load_eq_of_ge buffer (by simpa [INES_HEADER_SIZE] using h16),
    if_pos (show (headerOf buffer).signature ≠ NES_SIGNATURE from hsig)]
  rfl

theorem C3_bad_signature_witness :
    Rom.load [0, 0, 0, 0, 0, 0, 0, 0, 0, 0, 0, 0, 0, 0, 0, 0] =
      some (Except.error (LoadError.BadSignature [0, 0, 0, 0])) :=
  C3_bad_signature [0, 0, 0, 0, 0, 0, 0, 0, 0, 0, 0, 0, 0, 0, 0, 0]
    (by decide) (by decide)

/-- C2: an input of at least 16 bytes with a valid signature but strictly
fewer bytes than `16 + (512 if byte 6 bit 2 else 0) + byte4*16384 +
byte5*8192` is rejected with `TruncatedFile` carrying both the actual and
the expected length; the result being `some` shows no read past the end of
the buffer happens on this path. -/
theorem C2_truncated (buffer : List Nat) (h16 : 16 ≤ buffer.length)
    (hsig : [buffer.getD 0 0, buffer.getD 1 0, buffer.getD 2 0, buffer.getD 3 0] =
      NES_SIGNATURE)
    (hlt : buffer.length <
      16 + (if buffer.getD 6 0 &&& 4 ≠ 0 then 512 else 0) +
        buffer.getD 4 0 * 16384 + buffer.getD 5 0 * 8192) :
    Rom.load buffer =
      some (Except.error (LoadError.TruncatedFile buffer.length
        (16 + (if buffer.getD 6 0 &&& 4 ≠ 0 then 512 else 0) +
          buffer.getD 4 0 * 16384 + buffer.getD 5 0 * 8192))) := by
  have he : expectedTotal buffer =
      16 + (if buffer.getD 6 0 &&& 4 ≠ 0 then 512 else 0) +
        buffer.getD 4 0 * 16384 + buffer.getD 5 0 * 8192 := by
    simp [expectedTotal, trainerOffset, prgRomSize, chrRomSize, INES_HEADER_SIZE,
      TRAINER_SIZE, PRG_ROM_PAGE_SIZE, CHR_ROM_PAGE_SIZE]
  rw [load_eq_of_ge buffer (by simpa [INES_HEADER_SIZE] using h16),
    if_neg (show ¬(headerOf buffer).signature ≠ NES_SIGNATURE from not_not_intro hsig),
    if_pos (show buffer.length < expectedTotal buffer by rw [he]; exact hlt), he]

theorem C2_truncated_witness :
    Rom.load [78, 69, 83, 26, 1, 0, 0, 0, 0, 0, 0, 0, 0, 0, 0, 0] =
      some (Except.error (LoadError.TruncatedFile 16 16400)) :=
  C2_truncated [78, 69, 83, 26, 1, 0, 0, 0, 0, 0, 0, 0, 0, 0, 0, 0]
    (by decide) (by decide) (by decide)

theorem and_pow_two_ne_zero_iff (x i : Nat) : x &&& 2 ^ i ≠ 0 ↔ x.testBit i = true := by
  constructor
  · intro hne
    by_contra hbit
    refine hne (Nat.eq_of_testBit_eq fun j => ?_)
    simp only [Nat.testBit_and, Nat.testBit_two_pow, Nat.zero_testBit]
    by_cases hj : i = j
    · subst hj
      simp only [Bool.not_eq_true] at hbit
      simp [hbit]
    · simp [hj]
  · intro hbit h0
    have hb := congrArg (fun y => Nat.testBit y i) h0
    simp [Nat.testBit_and, Nat.testBit_two_pow, hbit] at hb

/-- C6: `mapper_id` is the high nibble of `control_byte2` combined with the
high nibble of `control_byte1` shifted into the low nibble position, for
every header (total, no failure); control bytes `0x10`, `0x20` give `0x21`. -/
theorem C6_mapper_id :
    (∀ h : RomHeader,
      h.mapper_id = (h.control_byte2 &&& 0xF0) ||| (h.control_byte1 >>> 4)) ∧
    RomHeader.mapper_id
      { signature := [78, 69, 83, 26]
        num_prg_pages := 0
        num_chr_pages := 0
        control_byte1 := 0x10
        control_byte2 := 0x20
        reserved := [0, 0, 0, 0, 0, 0, 0, 0] } = 0x21 :=
  ⟨fun _ => rfl, by decide⟩

/-- C7: `mirroring` is total over `control_byte1` and decodes it as: bit 3
set gives `FourScreen` regardless of bit 0; otherwise bit 0 set gives
`Vertical`, else `Horizontal`. -/
theorem C7_mirroring_decode (h : RomHeader) :
    h.mirroring =
      if h.control_byte1.testBit 3 then Mirroring.FourScreen
      else if h.control_byte1.testBit 0 then Mirroring.Vertical
      else Mirroring.Horizontal := by
  have h3 := and_pow_two_ne_zero_iff h.control_byte1 3
  have h0 := and_pow_two_ne_zero_iff h.control_byte1 0
  rw [show (2 : Nat) ^ 3 = 8 by norm_num] at h3
  rw [pow_zero] at h0
  simp only [RomHeader.mirroring]
  by_cases hb3 : h.control_byte1.testBit 3 = true
  · rw [if_pos (h3.mpr hb3), if_pos hb3]
  · rw [if_neg (fun hc => hb3 (h3.mp hc)), if_neg hb3]
    by_cases hb0 : h.control_byte1.testBit 0 = true
    · rw [if_pos (h0.mpr hb0), if_pos hb0]
    · rw [if_neg (fun hc => hb0 (h0.mp hc)), if_neg hb0]

theorem getElem?_eq_of_take_eq {x y : List Nat} (hxy : x.take 16 = y.take 16)
    (i : Nat) (hi : i < 16) : x[i]? = y[i]? := by
  have hc := congrArg (fun l => l[i]?) hxy
  simpa [List.getElem?_take, hi] using hc

theorem getD_eq_of_take_eq {x y : List Nat} (hxy : x.take 16 = y.take 16)
    (i : Nat) (hi : i < 16) : x.getD i 0 = y.getD i 0 := by
  simp only [List.getD_eq_getElem?_getD, getElem?_eq_of_take_eq hxy i hi]

theorem headerOf_eq_of_take_eq {x y : List Nat} (hxy : x.take 16 = y.take 16) :
    headerOf x = headerOf y := by
  have hg : ∀ i, i < 16 → x[i]? = y[i]? := fun i hi => getElem?_eq_of_take_eq hxy i hi
  simp only [headerOf, List.getD_eq_getElem?_getD, INES_HEADER_SIZE]
  rw [hg 0 (by omega), hg 1 (by omega), hg 2 (by omega), hg 3 (by omega),
      hg 4 (by omega), hg 5 (by omega), hg 6 (by omega), hg 7 (by omega)]
  congr 1
  apply List.ext_getElem?
  intro j
  simp only [List.getElem?_take, List.getElem?_drop]
  by_cases hj : j < 16 - 8
  · rw [if_pos hj, if_pos hj, hg (8 + j) (by omega)]
  · rw [if_neg hj, if_neg hj]

theorem offsets_eq_of_take_eq {x y : List Nat} (hxy : x.take 16 = y.take 16) :
    trainerOffset x = trainerOffset y ∧ prgRomSize x = prgRomSize y ∧
    chrRomSize x = chrRomSize y ∧ prgRomStart x = prgRomStart y ∧
    chrRomStart x = chrRomStart y ∧ expectedTotal x = expectedTotal y := by
  have h4 := getD_eq_of_take_eq hxy 4 (by omega)
  have h5 := getD_eq_of_take_eq hxy 5 (by omega)
  have h6 := getD_eq_of_take_eq hxy 6 (by omega)
  simp only [List.getD_eq_getElem?_getD] at h4 h5 h6
  refine ⟨?_, ?_, ?_, ?_, ?_, ?_⟩ <;>
    simp [trainerOffset, prgRomSize, chrRomSize, prgRomStart, chrRomStart,
      expectedTotal, h4, h5, h6]

theorem drop_add_of_drop_eq {x y : List Nat} {m : Nat}
    (hd : x.drop m = y.drop m) (k : Nat) : x.drop (m + k) = y.drop (m + k) := by
  rw [← List.drop_drop, hd, List.drop_drop]

theorem take16_of_prefix (B t rest : List Nat) (h16 : 16 ≤ B.length) :
    (B.take 16 ++ t ++ rest).take 16 = B.take 16 := by
  rw [List.append_assoc,
    List.take_append_of_le_length (by simp [List.length_take]; omega),
    List.take_take]
  norm_num

theorem drop_of_prefix (B t rest : List Nat) (h16 : 16 ≤ B.length) :
    (B.take 16 ++ t ++ rest).drop (16 + t.length) = rest :=
  List.drop_left' (by simp [List.length_append, List.length_take]; omega)

/-- C4: for every accepted input, `prg_rom` starts at byte offset
`16 + 512 = 528` when bit 2 of control byte 1 (input byte 6) is set and at
offset 16 when it is clear, and the 512 trainer bytes are not retained in
the cartridge: replacing them by any other 512 bytes yields the very same
`Rom` value. -/
theorem C4_trainer_offset (buffer t : List Nat) (rom : Rom)
    (hok : Rom.load buffer = some (Except.ok rom))
    (ht : t.length = if rom.header.has_trainer then 512 else 0) :
    rom.prg_rom =
      (buffer.drop (if rom.header.has_trainer then 16 + 512 else 16)).take
        (rom.header.num_prg_pages * 16384) ∧
    Rom.load (buffer.take 16 ++ t ++
        buffer.drop (16 + (if rom.header.has_trainer then 512 else 0))) =
      some (Except.ok rom) := by
  obtain ⟨h16, hsig, hexp, hrom⟩ := (load_ok_iff buffer rom).mp hok
  have h16' : 16 ≤ buffer.length := by simpa [INES_HEADER_SIZE] using h16
  have htoff : (if (headerOf buffer).has_trainer then (512 : Nat) else 0) =
      trainerOffset buffer := by
    simp only [RomHeader.has_trainer, headerOf, trainerOffset, TRAINER_SIZE,
      bne_iff_ne, ne_eq]
  have hif : (if rom.header.has_trainer then (512 : Nat) else 0) =
      trainerOffset buffer := by
    rw [hrom]; exact htoff
  have ht' : t.length = trainerOffset buffer := by rw [ht, hif]
  have hhd : rom.header = headerOf buffer := by rw [hrom]
  constructor
  · have hoff : (if rom.header.has_trainer then 16 + 512 else 16) =
        prgRomStart buffer := by
      have h1 : (if rom.header.has_trainer then 16 + 512 else 16) =
          16 + (if rom.header.has_trainer then (512 : Nat) else 0) := by
        by_cases hb : rom.header.has_trainer <;> simp [hb]
      rw [h1, hif]
      rfl
    rw [hoff, hhd]
    have hprg : rom.prg_rom = (buffer.drop (prgRomStart buffer)).take (prgRomSize buffer) := by
      rw [hrom]
    rw [hprg]
    rfl
  · rw [hif]
    have htake : (buffer.take 16 ++ t ++ buffer.drop (16 + trainerOffset buffer)).take 16 =
        buffer.take 16 := take16_of_prefix _ _ _ h16'
    have hdrp : (buffer.take 16 ++ t ++ buffer.drop (16 + trainerOffset buffer)).drop
        (16 + trainerOffset buffer) = buffer.drop (16 + trainerOffset buffer) := by
      rw [← ht']
      exact drop_of_prefix buffer t _ h16'
    obtain ⟨ho1, ho2, ho3, ho4, ho5, ho6⟩ := offsets_eq_of_take_eq htake
    rw [load_ok_iff]
    refine ⟨?_, ?_, ?_, ?_⟩
    · simp only [List.length_append, List.length_take, List.length_drop]
      omega
    · rw [headerOf_eq_of_take_eq htake]
      exact hsig
    · rw [ho6]
      have he : expectedTotal buffer =
          16 + trainerOffset buffer + prgRomSize buffer + chrRomSize buffer := rfl
      simp only [List.length_append, List.length_take, List.length_drop]
      simp only [he] at hexp ⊢
      omega
    · rw [hrom]
      have hps : prgRomStart buffer = 16 + trainerOffset buffer := by
        simp [prgRomStart, INES_HEADER_SIZE]
      have hcs : chrRomStart buffer = 16 + trainerOffset buffer + prgRomSize buffer := by
        simp [chrRomStart, prgRomStart, INES_HEADER_SIZE]
      simp only [Rom.mk.injEq]
      refine ⟨(headerOf_eq_of_take_eq htake).symm, ?_, ?_⟩
      · rw [ho2, ho4, hps, hdrp]
      · rw [ho3, ho5, hcs, drop_add_of_drop_eq hdrp (prgRomSize buffer)]

/-- Sample input with a trainer: header with the trainer bit set, zero PRG
and CHR pages, followed by a 512-byte trainer block. -/
def trainerInput : List Nat :=
  [78, 69, 83, 26, 0, 0, 4, 0, 0, 0, 0, 0, 0, 0, 0, 0] ++ List.replicate 512 7

/-- An alternative 512-byte trainer block. -/
def altTrainer : List Nat := List.replicate 512 9

/-- The cartridge `Rom.load` produces from `trainerInput`. -/
def trainerRom : Rom :=
  { header :=
      { signature := [78, 69, 83, 26]
        num_prg_pages := 0
        num_chr_pages := 0
        control_byte1 := 4
        control_byte2 := 0
        reserved := [0, 0, 0, 0, 0, 0, 0, 0] }
    prg_rom := []
    chr_rom := [] }

set_option maxRecDepth 20000 in
theorem C4_trainer_offset_witness :
    trainerRom.prg_rom =
      (trainerInput.drop (if trainerRom.header.has_trainer then 16 + 512 else 16)).take
        (trainerRom.header.num_prg_pages * 16384) ∧
    Rom.load (trainerInput.take 16 ++ altTrainer ++
        trainerInput.drop (16 + (if trainerRom.header.has_trainer then 512 else 0))) =
      some (Except.ok trainerRom) :=
  C4_trainer_offset trainerInput altTrainer trainerRom (by decide) (by decide)

/-- C5: appending arbitrary trailing bytes to an accepted exact-length input
still succeeds and yields the identical cartridge; the only behavioural
difference is the non-fatal oversize notice, emitted exactly when at least
one byte was appended. -/
theorem C5_trailing_bytes (B S : List Nat) (rom : Rom)
    (hok : Rom.load B = some (Except.ok rom))
    (hexact : B.length = expectedTotal B) :
    Rom.load (B ++ S) = some (Except.ok rom) ∧
    noticeEmitted B = false ∧
    noticeEmitted (B ++ S) = !S.isEmpty := by
  obtain ⟨h16, hsig, hexp, hrom⟩ := (load_ok_iff B rom).mp hok
  have h16' : 16 ≤ B.length := by simpa [INES_HEADER_SIZE] using h16
  have htake : (B ++ S).take 16 = B.take 16 := List.take_append_of_le_length h16'
  obtain ⟨ho1, ho2, ho3, ho4, ho5, ho6⟩ := offsets_eq_of_take_eq htake
  have hdrp : ∀ s n : Nat, s + n ≤ B.length →
      ((B ++ S).drop s).take n = (B.drop s).take n := by
    intro s n hsn
    apply List.ext_getElem?
    intro j
    simp only [List.getElem?_take, List.getElem?_drop]
    by_cases hj : j < n
    · rw [if_pos hj, if_pos hj, List.getElem?_append_left (by omega)]
    · rw [if_neg hj, if_neg hj]
  have hple : prgRomStart B + prgRomSize B ≤ expectedTotal B := by
    simp only [expectedTotal, prgRomStart, INES_HEADER_SIZE]
    omega
  have hcle : chrRomStart B + chrRomSize B ≤ expectedTotal B := by
    simp only [expectedTotal, chrRomStart, prgRomStart, INES_HEADER_SIZE]
    omega
  refine ⟨?_, ?_, ?_⟩
  · rw [load_ok_iff]
    refine ⟨by simp only [List.length_append]; omega, ?_, ?_, ?_⟩
    · rw [headerOf_eq_of_take_eq htake]
      exact hsig
    · rw [ho6]
      simp only [List.length_append]
      omega
    · rw [hrom]
      simp only [Rom.mk.injEq]
      exact ⟨(headerOf_eq_of_take_eq htake).symm,
        (by rw [ho2, ho4]; exact (hdrp _ _ (by omega)).symm),
        (by rw [ho3, ho5]; exact (hdrp _ _ (by omega)).symm)⟩
  · simp [noticeEmitted, hexact]
  · rcases S with _ | ⟨a, S⟩
    · rw [List.append_nil]
      simp [noticeEmitted, hexact]
    · simp only [noticeEmitted, headerOf_eq_of_take_eq htake, ho6, List.isEmpty_cons,
        Bool.not_false, Bool.and_eq_true, decide_eq_true_eq, List.length_append,
        List.length_cons, INES_HEADER_SIZE]
      refine ⟨⟨by omega, hsig⟩, by omega⟩

theorem C5_trailing_bytes_witness :
    Rom.load (headerOnlyInput ++ [1, 2, 3]) = some (Except.ok headerOnlyRom) ∧
    noticeEmitted headerOnlyInput = false ∧
    noticeEmitted (headerOnlyInput ++ [1, 2, 3]) = !(([1, 2, 3] : List Nat).isEmpty) :=
  C5_trailing_bytes headerOnlyInput [1, 2, 3] headerOnlyRom (by decide) (by decide)

theorem drop_set_of_lt (l : List Nat) (i n v : Nat) (hin : i < n) :
    (l.set i v).drop n = l.drop n := by
  apply List.ext_getElem?
  intro j
  rw [List.getElem?_drop, List.getElem?_drop, List.getElem?_set_ne (by omega)]

theorem and_240_congr {v w : Nat} (h : v >>> 4 = w >>> 4) :
    v &&& 240 = w &&& 240 := by
  have hbit : ∀ j, v.testBit (4 + j) = w.testBit (4 + j) := by
    intro j
    have hc := congrArg (fun x => Nat.testBit x j) h
    simpa using hc
  apply Nat.eq_of_testBit_eq
  intro i
  simp only [Nat.testBit_and]
  by_cases h4 : 4 ≤ i
  · by_cases h8 : i < 8
    · have hi : v.testBit i = w.testBit i := by
        have hb := hbit (i - 4)
        rwa [show 4 + (i - 4) = i by omega] at hb
      rw [hi]
    · have h240 : Nat.testBit 240 i = false := by
        apply Nat.testBit_lt_two_pow
        calc 240 < 2 ^ 8 := by norm_num
          _ ≤ 2 ^ i := Nat.pow_le_pow_right (by norm_num) (by omega)
      simp [h240]
  · have h240 : Nat.testBit 240 i = false := by
      interval_cases i <;> decide
    simp [h240]

/-- C10: two inputs that differ only in the low four bits of byte 7 load
identically: same success or failure, same error values, same extracted
data, and the same derived `mapper_id`; only the stored `control_byte2`
header field can differ (erased by `Rom.scrubCb2` before comparison). -/
theorem C10_cb2_low_nibble (buffer : List Nat) (v : Nat)
    (hv : v >>> 4 = buffer.getD 7 0 >>> 4) :
    Option.map (Except.map Rom.scrubCb2) (Rom.load (buffer.set 7 v)) =
      Option.map (Except.map Rom.scrubCb2) (Rom.load buffer) ∧
    Option.map (Except.map fun r => r.header.mapper_id) (Rom.load (buffer.set 7 v)) =
      Option.map (Except.map fun r => r.header.mapper_id) (Rom.load buffer) := by
  by_cases h7 : buffer.length ≤ 7
  · rw [List.set_eq_of_length_le h7]
    exact ⟨rfl, rfl⟩
  push_neg at h7
  have hlen : (buffer.set 7 v).length = buffer.length := List.length_set buffer 7 v
  by_cases h16 : buffer.length < 16
  · rw [load_eq_of_lt (buffer.set 7 v) (by simpa [INES_HEADER_SIZE, hlen] using h16),
        load_eq_of_lt buffer (by simpa [INES_HEADER_SIZE] using h16), hlen]
    exact ⟨rfl, rfl⟩
  push_neg at h16
  have hget : ∀ i, i ≠ 7 → (buffer.set 7 v).getD i 0 = buffer.getD i 0 := by
    intro i hi
    rw [List.getD_eq_getElem?_getD, List.getD_eq_getElem?_getD,
      List.getElem?_set_ne (Ne.symm hi)]
  have hget7 : (buffer.set 7 v).getD 7 0 = v := by
    rw [List.getD_eq_getElem?_getD, List.getElem?_set_self (by omega : 7 < buffer.length)]
    rfl
  have hdr : headerOf (buffer.set 7 v) =
      { signature := (headerOf buffer).signature
        num_prg_pages := (headerOf buffer).num_prg_pages
        num_chr_pages := (headerOf buffer).num_chr_pages
        control_byte1 := (headerOf buffer).control_byte1
        control_byte2 := v
        reserved := (headerOf buffer).reserved } := by
    simp only [headerOf, RomHeader.mk.injEq]
    refine ⟨?_, hget 4 (by omega), hget 5 (by omega), hget 6 (by omega), hget7, ?_⟩
    · rw [hget 0 (by omega), hget 1 (by omega), hget 2 (by omega), hget 3 (by omega)]
    · rw [drop_set_of_lt buffer 7 8 v (by omega)]
  have hoffs : trainerOffset (buffer.set 7 v) = trainerOffset buffer ∧
      prgRomSize (buffer.set 7 v) = prgRomSize buffer ∧
      chrRomSize (buffer.set 7 v) = chrRomSize buffer ∧
      prgRomStart (buffer.set 7 v) = prgRomStart buffer ∧
      chrRomStart (buffer.set 7 v) = chrRomStart buffer ∧
      expectedTotal (buffer.set 7 v) = expectedTotal buffer := by
    refine ⟨?_, ?_, ?_, ?_, ?_, ?_⟩ <;>
      simp only [trainerOffset, prgRomSize, chrRomSize, prgRomStart, chrRomStart,
        expectedTotal, hget 4 (by omega), hget 5 (by omega), hget 6 (by omega)]
  obtain ⟨ho1, ho2, ho3, ho4, ho5, ho6⟩ := hoffs
  have hps16 : 16 ≤ prgRomStart buffer := by
    simp only [prgRomStart, INES_HEADER_SIZE]
    omega
  have hcs16 : 16 ≤ chrRomStart buffer := by
    simp only [chrRomStart, prgRomStart, INES_HEADER_SIZE]
    omega
  have hprgslice : ((buffer.set 7 v).drop (prgRomStart (buffer.set 7 v))).take
      (prgRomSize (buffer.set 7 v)) =
      (buffer.drop (prgRomStart buffer)).take (prgRomSize buffer) := by
    rw [ho4, ho2, drop_set_of_lt buffer 7 (prgRomStart buffer) v (by omega)]
  have hchrslice : ((buffer.set 7 v).drop (chrRomStart (buffer.set 7 v))).take
      (chrRomSize (buffer.set 7 v)) =
      (buffer.drop (chrRomStart buffer)).take (chrRomSize buffer) := by
    rw [ho5, ho3, drop_set_of_lt buffer 7 (chrRomStart buffer) v (by omega)]
  have hA : INES_HEADER_SIZE ≤ (buffer.set 7 v).length := by
    simp only [INES_HEADER_SIZE, hlen]
    omega
  have hB : INES_HEADER_SIZE ≤ buffer.length := by
    simp only [INES_HEADER_SIZE]
    omega
  constructor
  · rw [load_eq_of_ge _ hA, load_eq_of_ge _ hB]
    simp only [hdr, hlen, ho6]
    split_ifs with hs ht
    · rfl
    · rfl
    · simp only [Option.map_some', Except.map, Option.some.injEq, Except.ok.injEq,
        Rom.scrubCb2, Rom.mk.injEq, RomHeader.mk.injEq, hprgslice, hchrslice]
  · rw [load_eq_of_ge _ hA, load_eq_of_ge _ hB]
    simp only [hdr, hlen, ho6]
    split_ifs with hs ht
    · rfl
    · rfl
    · simp only [Option.map_some', Except.map, Option.some.injEq, Except.ok.injEq,
        RomHeader.mapper_id]
      rw [and_240_congr hv]
      rfl

theorem C10_cb2_low_nibble_witness :
    Option.map (Except.map Rom.scrubCb2) (Rom.load (headerOnlyInput.set 7 5)) =
      Option.map (Except.map Rom.scrubCb2) (Rom.load headerOnlyInput) ∧
    Option.map (Except.map fun r => r.header.mapper_id)
        (Rom.load (headerOnlyInput.set 7 5)) =
      Option.map (Except.map fun r => r.header.mapper_id) (Rom.load headerOnlyInput) :=
  C10_cb2_low_nibble headerOnlyInput 5 (by decide)
